import Mathlib

/-!
Verification of the Reddit multireddit polling pipeline
(`src/fetcher.py`, `src/storage.py`, `src/reddit_auth.py`, `src/reddit_client.py`).

Python dicts/JSON values are shallowly embedded as the inductive `Json`
(numbers as `Rat`, objects as association lists with unique-key discipline,
matching `dict` semantics). Stateful code is embedded as explicit state
passing; network calls are embedded as explicit response inputs
(an oracle function or a scripted list of responses).
-/

/-- A JSON value / dynamically-typed Python value, as produced by `json.loads`.
Numbers are modelled as exact rationals (Python floats are not the subject of
any verified property here). -/
inductive Json where
  | null
  | bool (b : Bool)
  | num (q : Rat)
  | str (s : String)
  | arr (l : List Json)
  | obj (o : List (String × Json))

/-- Python truthiness of a JSON value (`if value:`):
`None`, `False`, `0`, `""`, `[]`, `{}` are falsy. -/
def Json.truthy : Json → Bool
  | .null => false
  | .bool b => b
  | .num q => q ≠ 0
  | .str s => s ≠ ""
  | .arr l => !l.isEmpty
  | .obj o => !o.isEmpty

/-- Python `value == some_string` where `value` came out of a dict:
true exactly when `value` is the string `t` (a non-string value never
equals a string in Python). -/
def Json.eqStr : Json → String → Bool
  | .str s, t => s = t
  | _, _ => false

/-- Python `str(value)` as used inside f-string interpolation, for the scalar
values that occur in removal categories. (Container and float `repr` details
are irrelevant to the verified properties: removal categories are strings.) -/
def Json.pyStr : Json → String
  | .str s => s
  | .num q => toString q
  | .bool true => "True"
  | .bool false => "False"
  | .null => "None"
  | .arr _ => "<list>"
  | .obj _ => "<dict>"

/-- `d.get(k)` on a Python dict embedded as an association list
(keys are unique, first match wins). -/
def dictGet? (o : List (String × Json)) (k : String) : Option Json :=
  match o.find? (fun p => p.1 == k) with
  | some p => some p.2
  | none => none

/-- `d.get(k, default)` on a Python dict. -/
def dictGetD (o : List (String × Json)) (k : String) (d : Json) : Json :=
  (dictGet? o k).getD d

/-- `d[k] = v` on a Python dict: overwrite in place if the key exists
(keeping its position), otherwise append at the end (insertion order). -/
def dictSet : List (String × Json) → String → Json → List (String × Json)
  | [], k, v => [(k, v)]
  | p :: rest, k, v => if p.1 == k then (k, v) :: rest else p :: dictSet rest k v

/-- `k in d` on a Python dict. -/
def containsKey (o : List (String × Json)) (k : String) : Bool :=
  o.any (fun p => p.1 == k)

/-- `j.get(k, default)` where `j` is a decoded JSON value expected to be an
object (Python would raise `AttributeError` on a non-dict; the non-object
case never arises in the verified properties). -/
def Json.getD (j : Json) (k : String) (d : Json) : Json :=
  match j with
  | .obj o => dictGetD o k d
  | _ => d

/-! ## `src/fetcher.py` -/

/-- `item.get("data", {}).get("name", "")`: the fullname of a listing item
(`Fetcher.filter_new_posts`, `Fetcher.fetch_details_batch`). -/
def itemName (item : Json) : Json :=
  (item.getD "data" (.obj [])).getD "name" (.str "")

/-- The loop condition of `Fetcher.filter_new_posts`:
`if fullname and fullname not in seen_fullnames`. The seen set is a set of
strings, so membership is equality with one of them. -/
def isNewPost (seen : List String) (item : Json) : Bool :=
  (itemName item).truthy && !(seen.any (fun s => (itemName item).eqStr s))

/-- `Fetcher.filter_new_posts(listing_items, seen_fullnames)`: the loop
accumulates `new_posts`, appending each item that has a truthy fullname not
in the seen set. -/
def filter_new_posts (listing_items : List Json) (seen_fullnames : List String) :
    List Json :=
  listing_items.foldl
    (fun new_posts item =>
      if isNewPost seen_fullnames item then new_posts ++ [item] else new_posts)
    []

/-- `detect_deleted_removed(data)` from `src/fetcher.py`: collect hints in
source order, return `(True, "|".join(hints))` if any, else `(False, None)`. -/
def detect_deleted_removed (data : List (String × Json)) : Bool × Option String :=
  let author := dictGetD data "author" (.str "")
  let selftext := dictGetD data "selftext" (.str "")
  let hints : List String :=
    (if author.eqStr "[deleted]" then ["author_deleted"] else [])
      ++ (if selftext.eqStr "[deleted]" then ["text_deleted"] else [])
      ++ (if selftext.eqStr "[removed]" then ["text_removed"] else [])
      ++ (match dictGet? data "removed_by_category" with
          | some v => if v.truthy then ["removed_by_" ++ v.pyStr] else []
          | none => [])
  if hints ≠ [] then (true, some (String.intercalate "|" hints))
  else (false, none)

/-! ### Facts about `filter_new_posts` -/

theorem filter_new_posts_foldl (items : List Json) (seen : List String)
    (acc : List Json) :
    items.foldl
      (fun new_posts item =>
        if isNewPost seen item then new_posts ++ [item] else new_posts) acc
      = acc ++ items.filter (isNewPost seen) := by
  induction items generalizing acc with
  | nil => simp
  | cons it rest ih =>
    by_cases h : isNewPost seen it
    · simp [List.foldl_cons, h, ih]
    · simp [List.foldl_cons, h, ih]

theorem filter_new_posts_eq_filter (items : List Json) (seen : List String) :
    filter_new_posts items seen = items.filter (isNewPost seen) := by
  simpa using filter_new_posts_foldl items seen []

/-- A well-formed listing item with the given fullname. -/
def itemOf (name : String) : Json :=
  .obj [("kind", .str "t3"), ("data", .obj [("name", .str name)])]

/-- C1: `filter_new_posts` returns exactly the items whose fullname (the
`name` field of the item's `data` dict) is truthy (for a string: non-empty)
and absent from the seen set, in input order (the result is a sublist of the
input); every emitted item with a string fullname has it non-empty and
unseen. An empty result is an ordinary value, not an error. -/
theorem filter_new_posts_spec (items : List Json) (seen : List String) :
    filter_new_posts items seen
        = items.filter (fun item => (itemName item).truthy
            && !(seen.any (fun s => (itemName item).eqStr s)))
      ∧ (filter_new_posts items seen).Sublist items
      ∧ (∀ item ∈ filter_new_posts items seen, ∀ s : String,
          itemName item = .str s → s ≠ "" ∧ s ∉ seen) := by
  refine ⟨filter_new_posts_eq_filter items seen, ?_, ?_⟩
  · rw [filter_new_posts_eq_filter]
    exact List.filter_sublist items
  · intro item hmem s hs
    rw [filter_new_posts_eq_filter] at hmem
    have hcond := List.of_mem_filter hmem
    unfold isNewPost at hcond
    rw [hs] at hcond
    simp only [Bool.and_eq_true, Bool.not_eq_true', List.any_eq_false] at hcond
    obtain ⟨h1, h2⟩ := hcond
    constructor
    · simpa [Json.truthy] using h1
    · intro hin
      have := h2 s hin
      simp [Json.eqStr] at this

/-- Witness for C1 at a concrete listing: with seen set `{"t3_b"}`, the item
named `t3_a` is emitted and its fullname is non-empty and unseen. -/
theorem filter_new_posts_spec_witness :
    ("t3_a" : String) ≠ "" ∧ ("t3_a" : String) ∉ (["t3_b"] : List String) :=
  (filter_new_posts_spec [itemOf "t3_a", itemOf "t3_b"] ["t3_b"]).2.2
    (itemOf "t3_a") (by exact List.Mem.head _) "t3_a" rfl

/-- C8: `detect_deleted_removed` is a pure function of the field dict: the
removed flag is true iff at least one of the four conditions holds (author
sentinel, selftext deleted, selftext removed, truthy removal category); the
hint is `none` iff the flag is false; a post deleted only by its author
yields exactly `(true, "author_deleted")`, a normal post yields
`(false, none)`, and several reasons are joined with the `"|"` separator
in source order. -/
theorem detect_deleted_removed_spec :
    (∀ data : List (String × Json),
        ((detect_deleted_removed data).1 = true ↔
            (dictGetD data "author" (.str "")).eqStr "[deleted]" = true
          ∨ (dictGetD data "selftext" (.str "")).eqStr "[deleted]" = true
          ∨ (dictGetD data "selftext" (.str "")).eqStr "[removed]" = true
          ∨ (∃ v, dictGet? data "removed_by_category" = some v ∧ v.truthy = true))
        ∧ ((detect_deleted_removed data).2 = none ↔
            (detect_deleted_removed data).1 = false))
    ∧ detect_deleted_removed
        [("author", .str "[deleted]"), ("selftext", .str "original text")]
        = (true, some "author_deleted")
    ∧ detect_deleted_removed [("author", .str "alice"), ("selftext", .str "hello")]
        = (false, none)
    ∧ detect_deleted_removed
        [("author", .str "[deleted]"), ("selftext", .str "[removed]"),
         ("removed_by_category", .str "moderator")]
        = (true, some "author_deleted|text_removed|removed_by_moderator") := by
  refine ⟨?_, by decide, by decide, by decide⟩
  intro data
  unfold detect_deleted_removed
  cases hA : (dictGetD data "author" (.str "")).eqStr "[deleted]" <;>
    cases hB : (dictGetD data "selftext" (.str "")).eqStr "[deleted]" <;>
      cases hC : (dictGetD data "selftext" (.str "")).eqStr "[removed]" <;>
        rcases hD : dictGet? data "removed_by_category" with _ | v
  all_goals
    first
      | (cases hV : v.truthy <;> simp [hA, hB, hC, hD, hV])
      | (simp [hA, hB, hC, hD])

/-! ## `src/storage.py` — `State` -/

/-- `State._trim_seen`: when the list exceeds `max_seen_keep`, drop the
`excess = len - max_seen_keep` oldest (front) entries. -/
def trimSeen (max_seen_keep : Nat) (seen : List String) : List String :=
  if seen.length > max_seen_keep then
    seen.drop (seen.length - max_seen_keep)
  else seen

/-- `State.add_seen(fullname)`: append if absent, then trim. When the
fullname is already present nothing happens (no trim either). -/
def add_seen (max_seen_keep : Nat) (seen : List String) (fullname : String) :
    List String :=
  if fullname ∈ seen then seen
  else trimSeen max_seen_keep (seen ++ [fullname])

/-- The loop of `State.add_seen_batch`: append each fullname not already
present, in order. -/
def appendNewBatch (seen : List String) (fullnames : List String) : List String :=
  fullnames.foldl (fun acc fn => if fn ∈ acc then acc else acc ++ [fn]) seen

/-- `State.add_seen_batch(fullnames)`: append the new ones, then trim once. -/
def add_seen_batch (max_seen_keep : Nat) (seen : List String)
    (fullnames : List String) : List String :=
  trimSeen max_seen_keep (appendNewBatch seen fullnames)

/-- `State.save`: the JSON object written to the state file. -/
def state_save (seen : List String) (last_run_utc : Rat) : Json :=
  .obj [("seen_fullnames", .arr (seen.map .str)),
        ("last_run_utc", .num last_run_utc)]

/-- `State._load`: read the two persisted fields back out of the decoded
state-file object, with the source defaults `[]` and `0`. -/
def state_load (file : Json) : Json × Json :=
  (file.getD "seen_fullnames" (.arr []), file.getD "last_run_utc" (.num 0))

/-- Reading a decoded JSON array of strings back as the list of strings it
denotes (what `json.load` hands to `_seen_fullnames`). -/
def decodeStrs : List Json → Option (List String)
  | [] => some []
  | .str s :: rest => (decodeStrs rest).map (fun l => s :: l)
  | _ => none

def decodeStrList : Json → Option (List String)
  | .arr l => decodeStrs l
  | _ => none

theorem trimSeen_length_le (m : Nat) (seen : List String) :
    (trimSeen m seen).length ≤ m := by
  unfold trimSeen
  split
  · simp only [List.length_drop]
    omega
  · omega

theorem trimSeen_suffix (m : Nat) (seen : List String) :
    trimSeen m seen <:+ seen := by
  unfold trimSeen
  split
  · exact List.drop_suffix _ _
  · exact List.suffix_rfl

/-- C5: after a trim the seen list never exceeds `max_seen_keep`; a trim
removes exactly the oldest (front) entries — the retained entries are a
suffix of the pre-trim insertion order. This holds for a bare trim, for
`add_seen_batch` (whose pre-trim insertion order is `appendNewBatch`), and
for an appending `add_seen`. -/
theorem trim_seen_spec (m : Nat) (seen : List String) (fn : String)
    (fns : List String) :
    (trimSeen m seen).length ≤ m
    ∧ trimSeen m seen <:+ seen
    ∧ (seen.length > m → trimSeen m seen = seen.drop (seen.length - m))
    ∧ (add_seen_batch m seen fns).length ≤ m
    ∧ add_seen_batch m seen fns <:+ appendNewBatch seen fns
    ∧ (fn ∉ seen →
        (add_seen m seen fn).length ≤ m ∧ add_seen m seen fn <:+ seen ++ [fn]) := by
  refine ⟨trimSeen_length_le m seen, trimSeen_suffix m seen, ?_, ?_, ?_, ?_⟩
  · intro h
    unfold trimSeen
    simp [h]
  · exact trimSeen_length_le m _
  · exact trimSeen_suffix m _
  · intro h
    unfold add_seen
    simp only [h, if_false]
    exact ⟨trimSeen_length_le m _, trimSeen_suffix m _⟩

/-- Witness for C5: trimming a 3-element list to bound 1 drops the two
oldest entries; an appending `add_seen` at bound 2 stays within the bound
and retains a suffix of the insertion order. -/
theorem trim_seen_spec_witness :
    trimSeen 1 ["a", "b", "c"] = (["a", "b", "c"] : List String).drop 2
    ∧ ((add_seen 2 ["a", "b"] "c").length ≤ 2
        ∧ add_seen 2 ["a", "b"] "c" <:+ ["a", "b"] ++ ["c"]) :=
  ⟨(trim_seen_spec 1 ["a", "b", "c"] "x" []).2.2.1 (by decide),
   (trim_seen_spec 2 ["a", "b"] "c" []).2.2.2.2.2 (by decide)⟩

theorem appendNewBatch_nodup (seen : List String) (fns : List String)
    (h : seen.Nodup) : (appendNewBatch seen fns).Nodup := by
  induction fns generalizing seen with
  | nil => exact h
  | cons fn rest ih =>
    unfold appendNewBatch
    simp only [List.foldl_cons]
    by_cases hmem : fn ∈ seen
    · simp only [hmem, if_true]
      exact ih seen h
    · simp only [hmem, if_false]
      refine ih _ ?_
      simp [List.nodup_append, h, hmem]

theorem trimSeen_nodup (m : Nat) (seen : List String) (h : seen.Nodup) :
    (trimSeen m seen).Nodup :=
  ((trimSeen_suffix m seen).sublist).nodup h

/-- C10: `add_seen` and `add_seen_batch` preserve duplicate-freeness of the
seen list; adding an already-present fullname is a no-op, and below the trim
bound a repeated `add_seen` of the same fullname is idempotent. -/
theorem add_seen_nodup_spec (m : Nat) (seen : List String) (fn : String)
    (fns : List String) (hnd : seen.Nodup) :
    (add_seen m seen fn).Nodup
    ∧ (add_seen_batch m seen fns).Nodup
    ∧ (fn ∈ seen → add_seen m seen fn = seen)
    ∧ (seen.length < m → add_seen m (add_seen m seen fn) fn = add_seen m seen fn) := by
  refine ⟨?_, trimSeen_nodup m _ (appendNewBatch_nodup seen fns hnd), ?_, ?_⟩
  · unfold add_seen
    by_cases hmem : fn ∈ seen
    · simpa [hmem] using hnd
    · simp only [hmem, if_false]
      refine trimSeen_nodup m _ ?_
      simp [List.nodup_append, hnd, hmem]
  · intro hmem
    unfold add_seen
    simp [hmem]
  · intro hlen
    by_cases hmem : fn ∈ seen
    · simp [add_seen, hmem]
    · have hfirst : add_seen m seen fn = seen ++ [fn] := by
        unfold add_seen trimSeen
        have : (seen ++ [fn]).length ≤ m := by
          simp only [List.length_append, List.length_cons, List.length_nil]
          omega
        simp only [hmem, if_false]
        split
        · omega
        · rfl
      rw [hfirst]
      have : fn ∈ seen ++ [fn] := by simp
      simp [add_seen, this, hfirst]

/-- Witness for C10: on the duplicate-free list `["a", "b"]` with bound 10,
adding the present fullname `"a"` is the identity, and adding `"c"` twice
equals adding it once; all results are duplicate-free. -/
theorem add_seen_nodup_spec_witness :
    (add_seen 10 ["a", "b"] "c").Nodup
    ∧ (add_seen_batch 10 ["a", "b"] ["b", "c", "c"]).Nodup
    ∧ ((("a" : String) ∈ (["a", "b"] : List String)) → add_seen 10 ["a", "b"] "a" = ["a", "b"])
    ∧ ((["a", "b"] : List String).length < 10 →
        add_seen 10 (add_seen 10 ["a", "b"] "c") "c" = add_seen 10 ["a", "b"] "c") := by
  have h := add_seen_nodup_spec 10 ["a", "b"] "c" ["b", "c", "c"] (by decide)
  have h2 := add_seen_nodup_spec 10 ["a", "b"] "a" ["b"] (by decide)
  exact ⟨h.1, h.2.1, fun _ => h2.2.2.1 (by decide), fun _ => h.2.2.2 (by decide)⟩

theorem decodeStrs_map_str (l : List String) :
    decodeStrs (l.map Json.str) = some l := by
  induction l with
  | nil => rfl
  | cons s rest ih => simp [decodeStrs, ih]

/-- C6: saving the state and loading it back is the identity on the persisted
fields: the loaded `seen_fullnames` field is exactly the JSON encoding of the
saved ordered list (and decodes back to the same list), and the loaded
`last_run_utc` field is exactly the saved timestamp. -/
theorem state_roundtrip_spec (seen : List String) (last_run_utc : Rat) :
    (state_load (state_save seen last_run_utc)).1 = .arr (seen.map .str)
    ∧ decodeStrList (state_load (state_save seen last_run_utc)).1 = some seen
    ∧ (state_load (state_save seen last_run_utc)).2 = .num last_run_utc := by
  refine ⟨rfl, ?_, rfl⟩
  show decodeStrList (.arr (seen.map .str)) = some seen
  simp [decodeStrList, decodeStrs_map_str]

/-! ## `src/reddit_auth.py` — `RedditAuth` -/

/-- `RedditAuth.EXPIRY_BUFFER_SEC = 300` (refresh 5 minutes early). -/
def EXPIRY_BUFFER_SEC : Rat := 300

/-- `TokenInfo` from `src/reddit_auth.py`. Timestamps are exact rationals. -/
structure TokenInfo where
  access_token : String
  token_type : String
  expires_at : Rat
  scope : String
deriving DecidableEq

/-- Result of one `get_access_token` call: the returned token string, the
new cache contents, and how many token-exchange network calls were made. -/
structure AuthResult where
  token : String
  cache : Option TokenInfo
  tokenRequests : Nat
deriving DecidableEq

/-- `RedditAuth.get_access_token`, with the clock and the (otherwise
network-produced) fresh token of `_request_token` as explicit inputs:
return the cached token if `now < expires_at - EXPIRY_BUFFER_SEC`,
otherwise perform one token exchange and cache its result. -/
def get_access_token (now : Rat) (cached : Option TokenInfo)
    (fresh : TokenInfo) : AuthResult :=
  match cached with
  | some t =>
      if now < t.expires_at - EXPIRY_BUFFER_SEC then
        { token := t.access_token, cache := some t, tokenRequests := 0 }
      else
        { token := fresh.access_token, cache := some fresh, tokenRequests := 1 }
  | none => { token := fresh.access_token, cache := some fresh, tokenRequests := 1 }

/-- Counterexample to C2 as stated: a cached token whose remaining validity
is exactly the buffer (`expires_at = now + 300`, so remaining = 300 ≥ 300)
is NOT returned from the cache — the code performs a token-exchange call,
because it requires `now < expires_at - 300` strictly. -/
theorem get_access_token_boundary_cex :
    (TokenInfo.mk "cached" "bearer" 300 "").expires_at - (0 : Rat)
        ≥ EXPIRY_BUFFER_SEC
    ∧ (get_access_token 0 (some (TokenInfo.mk "cached" "bearer" 300 ""))
        (TokenInfo.mk "fresh" "bearer" 3900 "")).tokenRequests = 1
    ∧ (get_access_token 0 (some (TokenInfo.mk "cached" "bearer" 300 ""))
        (TokenInfo.mk "fresh" "bearer" 3900 "")).token ≠ "cached" := by
  have hcond : ¬ ((0 : Rat) < (300 : Rat) - EXPIRY_BUFFER_SEC) := by
    norm_num [EXPIRY_BUFFER_SEC]
  refine ⟨by norm_num [EXPIRY_BUFFER_SEC], ?_, ?_⟩ <;>
    simp [get_access_token, hcond]

/-- C2 (amended): `get_access_token` returns the cached token with zero
token-exchange calls iff the remaining validity strictly exceeds the
300-second buffer (`now < expires_at - 300`); otherwise (including the
boundary `expires_at - now = 300`, and a cold cache) it performs exactly one
token-exchange call and caches the fresh token. In particular
`expires_at = now + 400` hits the cache and `expires_at = now + 100`
triggers exactly one refresh. -/
theorem get_access_token_spec (now : Rat) (t fresh : TokenInfo) :
    (now < t.expires_at - EXPIRY_BUFFER_SEC →
        get_access_token now (some t) fresh
          = { token := t.access_token, cache := some t, tokenRequests := 0 })
    ∧ (t.expires_at - EXPIRY_BUFFER_SEC ≤ now →
        get_access_token now (some t) fresh
          = { token := fresh.access_token, cache := some fresh, tokenRequests := 1 })
    ∧ get_access_token now none fresh
        = { token := fresh.access_token, cache := some fresh, tokenRequests := 1 }
    ∧ (t.expires_at = now + 400 →
        get_access_token now (some t) fresh
          = { token := t.access_token, cache := some t, tokenRequests := 0 })
    ∧ (t.expires_at = now + 100 →
        get_access_token now (some t) fresh
          = { token := fresh.access_token, cache := some fresh, tokenRequests := 1 }) := by
  refine ⟨fun h => by simp [get_access_token, h], ?_, rfl, ?_, ?_⟩
  · intro h
    simp [get_access_token, not_lt.mpr h]
  · intro h
    have hlt : now < t.expires_at - EXPIRY_BUFFER_SEC := by
      rw [h]
      unfold EXPIRY_BUFFER_SEC
      linarith
    simp [get_access_token, hlt]
  · intro h
    have hge : t.expires_at - EXPIRY_BUFFER_SEC ≤ now := by
      rw [h]
      unfold EXPIRY_BUFFER_SEC
      linarith
    simp [get_access_token, not_lt.mpr hge]

/-- Witness for C2 (amended) at `now = 1000`: a token expiring at 1400
(remaining 400 > 300) is served from cache with zero exchanges; a token
expiring at 1100 (remaining 100) causes exactly one exchange. -/
theorem get_access_token_spec_witness :
    get_access_token 1000 (some (TokenInfo.mk "cached" "bearer" 1400 ""))
        (TokenInfo.mk "fresh" "bearer" 9999 "")
      = { token := "cached",
          cache := some (TokenInfo.mk "cached" "bearer" 1400 ""),
          tokenRequests := 0 }
    ∧ get_access_token 1000 (some (TokenInfo.mk "old" "bearer" 1100 ""))
        (TokenInfo.mk "fresh" "bearer" 9999 "")
      = { token := "fresh",
          cache := some (TokenInfo.mk "fresh" "bearer" 9999 ""),
          tokenRequests := 1 } :=
  ⟨(get_access_token_spec 1000 (TokenInfo.mk "cached" "bearer" 1400 "")
      (TokenInfo.mk "fresh" "bearer" 9999 "")).2.2.2.1 (by norm_num),
   (get_access_token_spec 1000 (TokenInfo.mk "old" "bearer" 1100 "")
      (TokenInfo.mk "fresh" "bearer" 9999 "")).2.2.2.2 (by norm_num)⟩

/-! ## `src/reddit_client.py` — `RedditClient.request` -/

/-- The `Retry-After` response header as seen by `_calculate_backoff`:
absent (or the empty, hence falsy, string), present but not parsing as a
float, or present and parsing to the value `q`. -/
inductive RetryAfter where
  | absent
  | unparsable
  | value (q : Rat)
deriving DecidableEq

/-- One scripted network interaction inside the `while True` loop of
`RedditClient.request`: an HTTP response with status, `Retry-After` header
and JSON body, or a transport-level timeout / connection error. -/
inductive NetEvent where
  | resp (status : Nat) (retryAfter : RetryAfter) (body : Json)
  | timeout
  | connError

/-- The outcome of `RedditClient.request`: a parsed 200 body, or one of the
raised exceptions (`AuthError`, `APIError` with its optional status code,
`RateLimitExceeded`). `scriptEnded` marks exhaustion of the scripted
response list (the real loop would keep requesting). -/
inductive Outcome where
  | ok (body : Json)
  | authError
  | apiError (status : Option Nat)
  | rateLimited
  | scriptEnded

/-- Observable result of a run of `RedditClient.request`: its outcome, the
backoff sleeps performed (in order), and how many times
`RedditAuth.invalidate_token` was called. -/
structure RunResult where
  outcome : Outcome
  sleeps : List Rat
  invalidations : Nat

/-- `RedditClient._should_retry(status_code, attempt)`: no retry once
`attempt >= max_retries`; otherwise retry exactly on 429/500/502/503/504. -/
def should_retry (max_retries : Nat) (status : Nat) (attempt : Nat) : Bool :=
  if attempt ≥ max_retries then false
  else status == 429 || status == 500 || status == 502 || status == 503
    || status == 504

/-- `RedditClient._calculate_backoff(attempt, response)`: the parsed
`Retry-After` value when the header is present, truthy and parses as a
float, else `backoff_sec * 2 ** attempt`. -/
def calculate_backoff (backoff_sec : Rat) (attempt : Nat)
    (retryAfter : RetryAfter) : Rat :=
  match retryAfter with
  | .value q => q
  | _ => backoff_sec * 2 ^ attempt

/-- The `while True` loop of `RedditClient.request`, run against a script of
network events, carrying the loop state `attempt` and `token_refreshed`.
Each branch mirrors the source: 200 returns the body; a first 401
invalidates the token and continues immediately (no sleep, same attempt); a
second 401 raises `AuthError`; 403/404 raise `APIError` at once; 429 retries
with backoff while attempts remain, else raises `RateLimitExceeded`; other
retryable statuses retry with backoff while attempts remain; any other
status raises `APIError`; timeouts and connection errors retry with
exponential backoff while `attempt < max_retries`, else raise `APIError`
(with no status code). -/
def request_run (max_retries : Nat) (backoff_sec : Rat) :
    List NetEvent → Nat → Bool → RunResult
  | [], _, _ => { outcome := .scriptEnded, sleeps := [], invalidations := 0 }
  | .resp status retryAfter body :: rest, attempt, token_refreshed =>
      if status == 200 then
        { outcome := .ok body, sleeps := [], invalidations := 0 }
      else if status == 401 then
        if !token_refreshed then
          let r := request_run max_retries backoff_sec rest attempt true
          { r with invalidations := r.invalidations + 1 }
        else
          { outcome := .authError, sleeps := [], invalidations := 0 }
      else if status == 403 then
        { outcome := .apiError (some 403), sleeps := [], invalidations := 0 }
      else if status == 404 then
        { outcome := .apiError (some 404), sleeps := [], invalidations := 0 }
      else if status == 429 then
        if should_retry max_retries status attempt then
          let backoff := calculate_backoff backoff_sec attempt retryAfter
          let r := request_run max_retries backoff_sec rest (attempt + 1)
            token_refreshed
          { r with sleeps := backoff :: r.sleeps }
        else
          { outcome := .rateLimited, sleeps := [], invalidations := 0 }
      else if should_retry max_retries status attempt then
        let backoff := calculate_backoff backoff_sec attempt retryAfter
        let r := request_run max_retries backoff_sec rest (attempt + 1)
          token_refreshed
        { r with sleeps := backoff :: r.sleeps }
      else
        { outcome := .apiError (some status), sleeps := [], invalidations := 0 }
  | .timeout :: rest, attempt, token_refreshed =>
      if attempt < max_retries then
        let backoff := calculate_backoff backoff_sec attempt .absent
        let r := request_run max_retries backoff_sec rest (attempt + 1)
          token_refreshed
        { r with sleeps := backoff :: r.sleeps }
      else
        { outcome := .apiError none, sleeps := [], invalidations := 0 }
  | .connError :: rest, attempt, token_refreshed =>
      if attempt < max_retries then
        let backoff := calculate_backoff backoff_sec attempt .absent
        let r := request_run max_retries backoff_sec rest (attempt + 1)
          token_refreshed
        { r with sleeps := backoff :: r.sleeps }
      else
        { outcome := .apiError none, sleeps := [], invalidations := 0 }

theorem request_run_no_invalidate (m : Nat) (b : Rat) (events : List NetEvent) :
    ∀ attempt, (request_run m b events attempt true).invalidations = 0 := by
  induction events with
  | nil => intro attempt; rfl
  | cons e rest ih =>
    intro attempt
    cases e with
    | resp status retryAfter body =>
      simp only [request_run, Bool.not_true]
      repeat' split
      all_goals simp_all [ih]
    | timeout =>
      simp only [request_run]
      split
      all_goals simp [ih]
    | connError =>
      simp only [request_run]
      split
      all_goals simp [ih]

/-- C3: the first 401 of a request invalidates the token exactly once and
the loop continues immediately — same script tail, same attempt counter,
no backoff sleep added, one more invalidation than the continuation; once
the token has been refreshed no further invalidation ever happens; and a
401 arriving after the refresh raises `AuthError` at once, with no retry. -/
theorem request_401_spec (m : Nat) (b : Rat) (ra : RetryAfter) (body : Json)
    (rest : List NetEvent) (attempt : Nat) :
    request_run m b (.resp 401 ra body :: rest) attempt false
      = { outcome := (request_run m b rest attempt true).outcome,
          sleeps := (request_run m b rest attempt true).sleeps,
          invalidations := (request_run m b rest attempt true).invalidations + 1 }
    ∧ (∀ events a, (request_run m b events a true).invalidations = 0)
    ∧ request_run m b (.resp 401 ra body :: rest) attempt true
      = { outcome := .authError, sleeps := [], invalidations := 0 } := by
  exact ⟨rfl, fun events a => request_run_no_invalidate m b events a, rfl⟩

/-- Witness for C3: a 401 followed by a 200 succeeds with exactly one
invalidation and no sleeps; two 401s end in `AuthError`. -/
theorem request_401_spec_witness :
    request_run 3 1 [.resp 401 .absent .null, .resp 200 .absent (.str "ok")] 0 false
      = { outcome :=
            (request_run 3 1 [.resp 200 .absent (.str "ok")] 0 true).outcome,
          sleeps := (request_run 3 1 [.resp 200 .absent (.str "ok")] 0 true).sleeps,
          invalidations :=
            (request_run 3 1 [.resp 200 .absent (.str "ok")] 0 true).invalidations
              + 1 }
    ∧ request_run 3 1 [.resp 401 .absent .null, .resp 401 .absent .null] 0 true
      = { outcome := .authError, sleeps := [], invalidations := 0 } :=
  ⟨(request_401_spec 3 1 .absent .null [.resp 200 .absent (.str "ok")] 0).1,
   (request_401_spec 3 1 .absent .null [.resp 401 .absent .null] 0).2.2⟩

/-- C4: on a retryable status (429/500/502/503/504) with attempts remaining
(`attempt < max_retries`) the loop sleeps for the computed backoff — the
parsed `Retry-After` value when present, else `backoff_sec * 2 ^ attempt` —
and retries with the attempt counter incremented; with the budget exhausted
a 429 raises `RateLimitExceeded` and the other retryable statuses raise
`APIError` carrying the status. -/
theorem request_retry_spec (m : Nat) (b : Rat) (status : Nat) (ra : RetryAfter)
    (body : Json) (rest : List NetEvent) (attempt : Nat) (tok : Bool)
    (hstatus : status = 429 ∨ status = 500 ∨ status = 502 ∨ status = 503
      ∨ status = 504) :
    (attempt < m →
        request_run m b (.resp status ra body :: rest) attempt tok
          = { outcome := (request_run m b rest (attempt + 1) tok).outcome,
              sleeps := calculate_backoff b attempt ra
                :: (request_run m b rest (attempt + 1) tok).sleeps,
              invalidations :=
                (request_run m b rest (attempt + 1) tok).invalidations })
    ∧ (m ≤ attempt →
        request_run m b (.resp status ra body :: rest) attempt tok
          = { outcome := if status = 429 then .rateLimited
                else .apiError (some status),
              sleeps := [], invalidations := 0 })
    ∧ (∀ q, calculate_backoff b attempt (.value q) = q)
    ∧ calculate_backoff b attempt .absent = b * 2 ^ attempt
    ∧ calculate_backoff b attempt .unparsable = b * 2 ^ attempt := by
  refine ⟨?_, ?_, fun q => rfl, rfl, rfl⟩
  · intro hlt
    have hsr : should_retry m status attempt = true := by
      unfold should_retry
      rcases hstatus with h | h | h | h | h <;> subst h <;> simp <;> omega
    rcases hstatus with h | h | h | h | h <;> subst h <;>
      simp [request_run, hsr]
  · intro hge
    have hsr : should_retry m status attempt = false := by
      unfold should_retry
      simp [Nat.le_of_lt_succ]
      omega
    rcases hstatus with h | h | h | h | h <;> subst h <;>
      simp [request_run, hsr]

/-- Witness for C4: a 429 with `Retry-After: 2` at attempt 0 of budget 3
sleeps 2 seconds and retries at attempt 1; a 429 at attempt 3 of budget 3
raises `RateLimitExceeded`. -/
theorem request_retry_spec_witness :
    request_run 3 1 [.resp 429 (.value 2) .null, .resp 200 .absent (.str "ok")]
        0 false
      = { outcome :=
            (request_run 3 1 [.resp 200 .absent (.str "ok")] 1 false).outcome,
          sleeps := calculate_backoff 1 0 (.value 2)
            :: (request_run 3 1 [.resp 200 .absent (.str "ok")] 1 false).sleeps,
          invalidations :=
            (request_run 3 1 [.resp 200 .absent (.str "ok")] 1 false).invalidations }
    ∧ request_run 3 1 [.resp 429 (.value 2) .null] 3 false
      = { outcome := if (429 : Nat) = 429 then .rateLimited
            else .apiError (some 429),
          sleeps := [], invalidations := 0 } :=
  ⟨(request_retry_spec 3 1 429 (.value 2) .null
      [.resp 200 .absent (.str "ok")] 0 false (Or.inl rfl)).1 (by omega),
   (request_retry_spec 3 1 429 (.value 2) .null [] 3 false (Or.inl rfl)).2.1
      (by omega)⟩

/-! ## `src/fetcher.py` — `Fetcher.fetch_details_batch` -/

/-- `Fetcher.MAX_IDS_PER_INFO_REQUEST = 100`. -/
def MAX_IDS_PER_INFO_REQUEST : Nat := 100

/-- The slicing loop `for i in range(0, len(fullnames), 100)` producing
`fullnames[i:i+100]`: successive take/drop of 100. The fuel argument only
bounds the number of loop iterations (one per non-empty remainder) and is
instantiated with the list length, which always suffices. -/
def chunksGo (fuel : Nat) (fullnames : List String) : List (List String) :=
  match fuel, fullnames with
  | _, [] => []
  | 0, _ :: _ => []
  | f + 1, fn :: rest =>
      (fn :: rest).take MAX_IDS_PER_INFO_REQUEST
        :: chunksGo f ((fn :: rest).drop MAX_IDS_PER_INFO_REQUEST)

/-- The batches issued by `fetch_details_batch`, in request order. -/
def chunks (fullnames : List String) : List (List String) :=
  chunksGo fullnames.length fullnames

/-- `response.get("data", {}).get("children", [])` (a non-list `children`
value would not be iterable in the source; it never arises here). -/
def childrenOf (resp : Json) : List Json :=
  match (resp.getD "data" (.obj [])).getD "children" (.arr []) with
  | .arr l => l
  | _ => []

/-- The body of the inner loop of `fetch_details_batch`:
`if item_fullname: details[item_fullname] = item`, where `item_fullname` is
the `name` of the item's `data`. (A non-string `name` — impossible for
Reddit fullnames — is not modelled as a dict key.) -/
def detailsInsert (details : List (String × Json)) (item : Json) :
    List (String × Json) :=
  match itemName item with
  | .str s => if s ≠ "" then dictSet details s item else details
  | _ => details

/-- `Fetcher.fetch_details_batch(fullnames)`, with the chunk responses as an
explicit oracle: returns the list of issued batch requests (in order) and
the merged fullname→item dict. An empty input returns immediately. -/
def fetch_details_batch (respond : List String → Json)
    (fullnames : List String) : List (List String) × List (String × Json) :=
  if fullnames.isEmpty then ([], [])
  else
    (chunks fullnames).foldl
      (fun st batch =>
        (st.1 ++ [batch],
         (childrenOf (respond batch)).foldl detailsInsert st.2))
      ([], [])

theorem chunksGo_join (fuel : Nat) :
    ∀ l : List String, l.length ≤ fuel → (chunksGo fuel l).flatten = l := by
  induction fuel with
  | zero =>
    intro l hl
    have : l = [] := List.length_eq_zero.mp (Nat.le_zero.mp hl)
    subst this
    rfl
  | succ f ih =>
    intro l hl
    match l with
    | [] => rfl
    | fn :: rest =>
      simp only [chunksGo, List.flatten_cons]
      rw [ih _ ?_]
      · exact List.take_append_drop _ _
      · simp only [List.length_drop, MAX_IDS_PER_INFO_REQUEST, List.length_cons]
        simp at hl
        omega

theorem chunksGo_length (fuel : Nat) :
    ∀ l : List String, l.length ≤ fuel →
      (chunksGo fuel l).length = (l.length + 99) / 100 := by
  induction fuel with
  | zero =>
    intro l hl
    have : l = [] := List.length_eq_zero.mp (Nat.le_zero.mp hl)
    subst this
    rfl
  | succ f ih =>
    intro l hl
    match l with
    | [] => rfl
    | fn :: rest =>
      simp only [chunksGo, List.length_cons]
      rw [ih _ ?_]
      · simp only [List.length_drop, MAX_IDS_PER_INFO_REQUEST, List.length_cons]
        omega
      · simp only [List.length_drop, MAX_IDS_PER_INFO_REQUEST, List.length_cons]
        simp at hl
        omega

theorem chunksGo_mem_le (fuel : Nat) :
    ∀ l : List String, ∀ c ∈ chunksGo fuel l,
      c.length ≤ MAX_IDS_PER_INFO_REQUEST := by
  induction fuel with
  | zero =>
    intro l c hc
    cases l <;> simp [chunksGo] at hc
  | succ f ih =>
    intro l c hc
    match l with
    | [] => simp [chunksGo] at hc
    | fn :: rest =>
      simp only [chunksGo, List.mem_cons] at hc
      rcases hc with h | h
      · subst h
        simp [List.length_take_le]
      · exact ih _ c h

theorem containsKey_dictSet_self (d : List (String × Json)) (k : String)
    (v : Json) : containsKey (dictSet d k v) k = true := by
  induction d with
  | nil => simp [dictSet, containsKey]
  | cons p rest ih =>
    simp only [dictSet]
    split
    · simp [containsKey]
    · simp only [containsKey, List.any_cons, Bool.or_eq_true]
      right
      exact ih

theorem containsKey_dictSet_of (d : List (String × Json)) (k k2 : String)
    (v : Json) (h : containsKey d k2 = true) :
    containsKey (dictSet d k v) k2 = true := by
  induction d with
  | nil => simp [containsKey] at h
  | cons p rest ih =>
    simp only [containsKey, List.any_cons, Bool.or_eq_true] at h
    simp only [dictSet]
    split
    · rcases h with h | h
      · rename_i heq
        simp only [containsKey, List.any_cons, Bool.or_eq_true]
        left
        rw [beq_iff_eq] at heq h ⊢
        rw [← heq, h]
      · simp only [containsKey, List.any_cons, Bool.or_eq_true]
        right
        exact h
    · rcases h with h | h
      · simp only [containsKey, List.any_cons, Bool.or_eq_true]
        left
        exact h
      · simp only [containsKey, List.any_cons, Bool.or_eq_true]
        right
        exact ih h

theorem foldl_detailsInsert_mono (items : List Json)
    (d : List (String × Json)) (k : String) (h : containsKey d k = true) :
    containsKey (items.foldl detailsInsert d) k = true := by
  induction items generalizing d with
  | nil => exact h
  | cons item rest ih =>
    simp only [List.foldl_cons]
    refine ih _ ?_
    unfold detailsInsert
    split
    · split
      · exact containsKey_dictSet_of _ _ _ _ h
      · exact h
    · exact h

theorem foldl_detailsInsert_adds (items : List Json)
    (d : List (String × Json)) (item : Json) (s : String)
    (hmem : item ∈ items) (hname : itemName item = .str s) (hne : s ≠ "") :
    containsKey (items.foldl detailsInsert d) s = true := by
  induction items generalizing d with
  | nil => simp at hmem
  | cons it rest ih =>
    simp only [List.foldl_cons]
    rcases List.mem_cons.mp hmem with h | h
    · subst h
      by_cases hrest : item ∈ rest
      · exact ih _ hrest
      · refine foldl_detailsInsert_mono rest _ s ?_
        unfold detailsInsert
        rw [hname]
        simp only [hne, ne_eq, not_false_iff, if_true]
        exact containsKey_dictSet_self _ _ _
    · exact ih _ h

theorem fetch_fold_requests (respond : List String → Json)
    (bs : List (List String)) :
    ∀ (init : List (List String)) (d : List (String × Json)),
      ((bs.foldl
        (fun st batch =>
          (st.1 ++ [batch],
           (childrenOf (respond batch)).foldl detailsInsert st.2))
        (init, d)).1) = init ++ bs := by
  induction bs with
  | nil => intro init d; simp
  | cons batch rest ih =>
    intro init d
    simp only [List.foldl_cons]
    rw [ih]
    simp

theorem fetch_fold_adds (respond : List String → Json)
    (bs : List (List String)) :
    ∀ (st : List (List String) × List (String × Json)),
      (∀ batch ∈ bs, ∀ item ∈ childrenOf (respond batch), ∀ s : String,
        itemName item = .str s → s ≠ "" →
          containsKey
            ((bs.foldl
              (fun st batch =>
                (st.1 ++ [batch],
                 (childrenOf (respond batch)).foldl detailsInsert st.2))
              st).2) s = true)
      ∧ (∀ k, containsKey st.2 k = true →
          containsKey
            ((bs.foldl
              (fun st batch =>
                (st.1 ++ [batch],
                 (childrenOf (respond batch)).foldl detailsInsert st.2))
              st).2) k = true) := by
  induction bs with
  | nil =>
    intro st
    exact ⟨fun batch h => by simp at h, fun k hk => hk⟩
  | cons b rest ih =>
    intro st
    constructor
    · intro batch hbatch item hitem s hname hne
      simp only [List.foldl_cons]
      rcases List.mem_cons.mp hbatch with h | h
      · subst h
        exact (ih _).2 s
          (foldl_detailsInsert_adds _ _ item s hitem hname hne)
      · exact (ih _).1 batch h item hitem s hname hne
    · intro k hk
      simp only [List.foldl_cons]
      exact (ih _).2 k (foldl_detailsInsert_mono _ _ k hk)

/-- A 150-element fullname list, for the concrete chunking instance. -/
def fullnames150 : List String :=
  (List.range 150).map (fun i => "t3_" ++ toString i)

set_option maxRecDepth 8000 in
/-- C7: `fetch_details_batch` issues its requests exactly on the consecutive
≤100-sized chunks of the input — the chunks concatenate back to the input,
each has at most 100 entries, and there are exactly `⌈n/100⌉` of them (for
150 fullnames: two requests, of sizes 100 and 50); an empty input produces
no request and an empty mapping; and the merged mapping contains an entry
for every non-empty fullname appearing among the children of any chunk
response. -/
theorem fetch_details_batch_spec (respond : List String → Json)
    (fullnames : List String) :
    (fetch_details_batch respond fullnames).1 = chunks fullnames
    ∧ (chunks fullnames).flatten = fullnames
    ∧ (∀ c ∈ chunks fullnames, c.length ≤ MAX_IDS_PER_INFO_REQUEST)
    ∧ (chunks fullnames).length = (fullnames.length + 99) / 100
    ∧ fetch_details_batch respond [] = ([], [])
    ∧ (chunks fullnames150).map List.length = [100, 50]
    ∧ (∀ batch ∈ chunks fullnames, ∀ item ∈ childrenOf (respond batch),
        ∀ s : String, itemName item = .str s → s ≠ "" →
          containsKey (fetch_details_batch respond fullnames).2 s = true) := by
  refine ⟨?_, chunksGo_join _ fullnames le_rfl, chunksGo_mem_le _ fullnames,
    chunksGo_length _ fullnames le_rfl, rfl, by decide, ?_⟩
  · unfold fetch_details_batch
    split
    · rename_i h
      rw [List.isEmpty_iff] at h
      subst h
      rfl
    · exact fetch_fold_requests respond (chunks fullnames) [] []
  · intro batch hbatch item hitem s hname hne
    unfold fetch_details_batch
    split
    · rename_i h
      rw [List.isEmpty_iff] at h
      subst h
      simp [chunks, chunksGo] at hbatch
    · exact (fetch_fold_adds respond (chunks fullnames) ([], [])).1
        batch hbatch item hitem s hname hne

/-- A chunk response carrying one well-formed item per requested fullname. -/
def respondEcho : List String → Json := fun batch =>
  .obj [("kind", .str "Listing"),
        ("data", .obj [("children", .arr (batch.map itemOf))])]

/-- Witness for C7: fetching details for `["t3_x", "t3_y"]` against an
echoing responder yields a mapping containing the key `"t3_x"`. -/
theorem fetch_details_batch_spec_witness :
    containsKey (fetch_details_batch respondEcho ["t3_x", "t3_y"]).2 "t3_x"
      = true :=
  (fetch_details_batch_spec respondEcho ["t3_x", "t3_y"]).2.2.2.2.2.2
    ["t3_x", "t3_y"] (by exact List.Mem.head _)
    (itemOf "t3_x") (by exact List.Mem.head _)
    "t3_x" rfl (by decide)

/-! ## `src/storage.py` — `CompliancePurger._purge_file` -/

/-- Python `line.strip()` (on whitespace): drop whitespace characters from
both ends. Implemented structurally on the character list so that concrete
instances compute. -/
def pyStrip (s : String) : String :=
  String.mk (((s.data.dropWhile Char.isWhitespace).reverse.dropWhile
    Char.isWhitespace).reverse)

/-- One line of a JSONL output file, paired with the result of
`json.loads` on its stripped text: `some fields` when it parses as a JSON
object, `none` when it raises `JSONDecodeError`. -/
structure RawLine where
  content : String
  parsed : Option (List (String × Json))

/-- The read loop of `CompliancePurger._purge_file`: strip each line, skip
empties; a line parsing to an object with a truthy
`is_deleted_or_removed` is counted as purged, any other parsed line is
kept, and a line that fails to parse is kept for manual inspection.
Returns `(purged_count, kept_lines)`. -/
def purge_file : List RawLine → Nat × List String
  | [] => (0, [])
  | l :: rest =>
      let s := pyStrip l.content
      if s = "" then purge_file rest
      else
        match l.parsed with
        | some data =>
            let r := purge_file rest
            if (dictGetD data "is_deleted_or_removed" (.bool false)).truthy then
              (r.1 + 1, r.2)
            else (r.1, s :: r.2)
        | none =>
            let r := purge_file rest
            (r.1, s :: r.2)

/-- The file content after `_purge_file`: rewritten to the kept lines when
anything was purged, untouched otherwise. -/
def purge_result (lines : List RawLine) : List String :=
  if (purge_file lines).1 > 0 then (purge_file lines).2
  else lines.map (fun l => l.content)

/-- Whether a line is a record flagged `is_deleted_or_removed` (a line that
does not parse is never flagged). -/
def lineFlagged (l : RawLine) : Bool :=
  match l.parsed with
  | some data => (dictGetD data "is_deleted_or_removed" (.bool false)).truthy
  | none => false

/-- A flagged JSONL record line. -/
def purgeRemovedLine (fullname : String) : RawLine :=
  { content := "\x7b\"fullname\": \"" ++ fullname
      ++ "\", \"is_deleted_or_removed\": true\x7d",
    parsed := some [("fullname", .str fullname),
                    ("is_deleted_or_removed", .bool true)] }

/-- A normal (unflagged) JSONL record line. -/
def purgeNormalLine (fullname : String) : RawLine :=
  { content := "\x7b\"fullname\": \"" ++ fullname
      ++ "\", \"is_deleted_or_removed\": false\x7d",
    parsed := some [("fullname", .str fullname),
                    ("is_deleted_or_removed", .bool false)] }

/-- A line that does not parse as JSON. -/
def purgeBadLine : RawLine := { content := "not json", parsed := none }

/-- C9: over an output file (each line non-blank with no surrounding
whitespace, as `PostWriter` produces), a purge run drops exactly the
records flagged `is_deleted_or_removed` and the resulting file holds the
remaining lines — including lines that do not parse as JSON, preserved
verbatim — with original content and relative order; the purged count is
the number of flagged records. Concretely, a file of 3 flagged and 2
normal records is rewritten to exactly the 2 normal lines, and a
malformed line survives a purge. -/
theorem purge_file_spec (lines : List RawLine)
    (hs : ∀ l ∈ lines, pyStrip l.content = l.content ∧ l.content ≠ "") :
    (purge_file lines).2
        = (lines.filter (fun l => !lineFlagged l)).map (fun l => l.content)
    ∧ (purge_file lines).1 = lines.countP lineFlagged
    ∧ purge_result lines
        = (lines.filter (fun l => !lineFlagged l)).map (fun l => l.content)
    ∧ purge_file
        [purgeRemovedLine "t3_a", purgeNormalLine "t3_c",
         purgeRemovedLine "t3_b", purgeNormalLine "t3_d",
         purgeRemovedLine "t3_e"]
        = (3, [(purgeNormalLine "t3_c").content,
               (purgeNormalLine "t3_d").content])
    ∧ purge_file [purgeRemovedLine "t3_a", purgeBadLine]
        = (1, ["not json"]) := by
  have hmain : (purge_file lines).2
        = (lines.filter (fun l => !lineFlagged l)).map (fun l => l.content)
      ∧ (purge_file lines).1 = lines.countP lineFlagged := by
    induction lines with
    | nil => exact ⟨rfl, rfl⟩
    | cons l rest ih =>
      obtain ⟨htrim, hne⟩ := hs l (List.mem_cons_self l rest)
      have ihrest := ih (fun x hx => hs x (List.mem_cons_of_mem l hx))
      simp only [purge_file, htrim, hne, if_false]
      cases hp : l.parsed with
      | some data =>
        by_cases hflag : (dictGetD data "is_deleted_or_removed"
            (.bool false)).truthy
        · have hlf : lineFlagged l = true := by simp [lineFlagged, hp, hflag]
          simp [hflag, hlf, ihrest.1, ihrest.2, List.countP_cons]
        · have hlf : lineFlagged l = false := by
            simp [lineFlagged, hp]
            simp at hflag
            exact hflag
          simp [hflag, hlf, ihrest.1, ihrest.2, htrim, List.countP_cons]
      | none =>
        have hlf : lineFlagged l = false := by simp [lineFlagged, hp]
        simp [hlf, ihrest.1, ihrest.2, htrim, List.countP_cons]
  refine ⟨hmain.1, hmain.2, ?_, by decide, by decide⟩
  unfold purge_result
  split
  · exact hmain.1
  · rename_i hz
    have hcount : lines.countP lineFlagged = 0 := by
      rw [← hmain.2]
      omega
    have hall : ∀ l ∈ lines, lineFlagged l = false := by
      intro l hl
      have := List.countP_eq_zero.mp hcount
      simpa using this l hl
    have : lines.filter (fun l => !lineFlagged l) = lines := by
      rw [List.filter_eq_self]
      intro a ha
      simp [hall a ha]
    rw [this]

/-- Witness for C9 on a two-line file (one flagged record, one normal
record): the purge rewrites the file to the normal record only. -/
theorem purge_file_spec_witness :
    purge_result [purgeRemovedLine "t3_a", purgeNormalLine "t3_c"]
      = (([purgeRemovedLine "t3_a", purgeNormalLine "t3_c"].filter
          (fun l => !lineFlagged l)).map (fun l => l.content)) :=
  (purge_file_spec [purgeRemovedLine "t3_a", purgeNormalLine "t3_c"]
    (by decide)).2.2.1
